import Mathlib

/-!
Verification development for the solid_mcp native core
(batching writer, store adapter, per-session subscriber, pub/sub facade).

The Rust source under ext/solid_mcp_native/core/src is shallowly embedded:

* message.rs         : the Message record (timestamps modelled as Int; epoch = 0)
* db/sqlite.rs       : rows carry RFC 3339 text timestamps; parsing is an
                       abstract function String -> Option Int
* db/postgres.rs     : rows carry typed timestamps (Int)
* writer.rs          : the worker loop is a trace semantics over the sequence
                       of commands received from the channel, with an explicit
                       schedule for try_recv availability and a write-failure
                       oracle
* subscriber.rs      : the polling and LISTEN/NOTIFY loops are step functions
                       driven by a fetch oracle
* pubsub.rs          : broadcast delegates to the writer's enqueue
-/

namespace SolidMcp

/-- Embedded from core/src/message.rs: the persisted Message record.
`created_at`/`delivered_at` are wall-clock instants, modelled as `Int`
(epoch default = 0); `delivered_at = none` means undelivered. -/
structure Message where
  id : Int
  session_id : String
  event_type : String
  data : String
  created_at : Int
  delivered_at : Option Int
deriving DecidableEq, Repr

/-- Embedded from core/src/message.rs, `Message::new`: id 0 (assigned by the
store), delivered_at unset, created_at = the current clock reading. -/
def Message.new (now : Int) (session_id event_type data : String) : Message :=
  { id := 0, session_id := session_id, event_type := event_type, data := data,
    created_at := now, delivered_at := none }

/-- Embedded from core/src/db/sqlite.rs: a raw row of solid_mcp_messages as
read back by fetch_after: timestamps are TEXT (RFC 3339 strings). -/
structure SqliteRow where
  id : Int
  session_id : String
  event_type : String
  data : String
  created_at : String
  delivered_at : Option String
deriving DecidableEq, Repr

/-- Embedded from core/src/db/sqlite.rs lines 138-156: the row-to-Message
conversion inside fetch_after.  `parse` abstracts
`chrono::DateTime::parse_from_rfc3339`.  `created_at` uses
`unwrap_or_default()` (epoch = 0 in the model); `delivered_at` uses
`and_then(... .ok())`, i.e. an unparsable stamp becomes `none`. -/
def rowToMessage (parse : String → Option Int) (r : SqliteRow) : Message :=
  { id := r.id, session_id := r.session_id, event_type := r.event_type,
    data := r.data,
    created_at := (parse r.created_at).getD 0,
    delivered_at := r.delivered_at.bind fun d => parse d }

instance sqliteRowLeDec : DecidableRel (fun a b : SqliteRow => a.id ≤ b.id) :=
  fun a b => Int.decLe a.id b.id

instance sqliteRowLeTotal : IsTotal SqliteRow (fun a b => a.id ≤ b.id) :=
  ⟨fun a b => Int.le_total a.id b.id⟩

instance sqliteRowLeTrans : IsTrans SqliteRow (fun a b => a.id ≤ b.id) :=
  ⟨fun _ _ _ h h2 => le_trans h h2⟩

instance messageLeDec : DecidableRel (fun a b : Message => a.id ≤ b.id) :=
  fun a b => Int.decLe a.id b.id

instance messageLeTotal : IsTotal Message (fun a b => a.id ≤ b.id) :=
  ⟨fun a b => Int.le_total a.id b.id⟩

instance messageLeTrans : IsTrans Message (fun a b => a.id ≤ b.id) :=
  ⟨fun _ _ _ h h2 => le_trans h h2⟩

/-- Embedded from core/src/db/sqlite.rs lines 117-137: the SQL
SELECT ... WHERE session_id = $1 AND delivered_at IS NULL AND id > $2
ORDER BY id LIMIT $3, over a list model of the table. -/
def sqliteSelect (tbl : List SqliteRow) (session_id : String)
    (after_id lim : Int) : List SqliteRow :=
  (List.insertionSort (fun a b => a.id ≤ b.id)
    (tbl.filter fun r =>
      decide (r.session_id = session_id ∧ r.delivered_at = none ∧ after_id < r.id))).take
    lim.toNat

/-- Embedded from core/src/db/sqlite.rs, `SqlitePool::fetch_after`. -/
def fetch_after (parse : String → Option Int) (tbl : List SqliteRow)
    (session_id : String) (after_id lim : Int) : List Message :=
  (sqliteSelect tbl session_id after_id lim).map (rowToMessage parse)

/-- Embedded from core/src/db/postgres.rs lines 150-194,
`PostgresPool::fetch_after`: same query over typed rows. -/
def fetch_after_pg (tbl : List Message) (session_id : String)
    (after_id lim : Int) : List Message :=
  (List.insertionSort (fun a b => a.id ≤ b.id)
    (tbl.filter fun m =>
      decide (m.session_id = session_id ∧ m.delivered_at = none ∧ after_id < m.id))).take
    lim.toNat

/-- Embedded from core/src/db/sqlite.rs lines 161-181,
`SqlitePool::mark_delivered`: UPDATE ... SET delivered_at = $1 WHERE id IN
(ids); the timestamp is bound once as RFC 3339 text and overwrites
unconditionally.  Empty ids is an early-return no-op. -/
def mark_delivered (now : String) (ids : List Int) (tbl : List SqliteRow) :
    List SqliteRow :=
  if ids.isEmpty then tbl
  else tbl.map fun r =>
    if r.id ∈ ids then { r with delivered_at := some now } else r

/-- Embedded from core/src/db/postgres.rs lines 196-213,
`PostgresPool::mark_delivered`: UPDATE ... SET delivered_at = NOW()
WHERE id = ANY($1); overwrites unconditionally. -/
def mark_delivered_pg (now : Int) (ids : List Int) (tbl : List Message) :
    List Message :=
  if ids.isEmpty then tbl
  else tbl.map fun m =>
    if m.id ∈ ids then { m with delivered_at := some now } else m

/-- Embedded from core/src/db/postgres.rs lines 215-229,
`PostgresPool::cleanup_delivered`: DELETE WHERE delivered_at IS NOT NULL AND
delivered_at < cutoff; returns (surviving table, rows_affected). -/
def cleanup_delivered_pg (cutoff : Int) (tbl : List Message) :
    List Message × Nat :=
  let gone := tbl.filter fun m =>
    match m.delivered_at with
    | some d => decide (d < cutoff)
    | none => false
  let kept := tbl.filter fun m =>
    match m.delivered_at with
    | some d => decide (¬ d < cutoff)
    | none => true
  (kept, gone.length)

/-- Embedded from core/src/db/sqlite.rs lines 217-223, `SqlitePool::max_id`:
SELECT MAX(id), with NULL (empty table) mapped to 0 by `unwrap_or(0)`. -/
def maxIdAux : List Int → Option Int
  | [] => none
  | i :: rest =>
    match maxIdAux rest with
    | none => some i
    | some m => some (max i m)

/-- Embedded from core/src/db/sqlite.rs, `SqlitePool::max_id` over the list
model of the table. -/
def max_id (tbl : List SqliteRow) : Int :=
  (maxIdAux (tbl.map SqliteRow.id)).getD 0

theorem maxIdAux_le {ids : List Int} {i : Int} (h : i ∈ ids) :
    ∃ m, maxIdAux ids = some m ∧ i ≤ m := by
  induction ids with
  | nil => cases h
  | cons a rest ih =>
    cases h with
    | head =>
      cases hrec : maxIdAux rest with
      | none => exact ⟨i, by simp [maxIdAux, hrec], le_refl i⟩
      | some m => exact ⟨max i m, by simp [maxIdAux, hrec], le_max_left i m⟩
    | tail _ hmem =>
      obtain ⟨m, hm, him⟩ := ih hmem
      exact ⟨max a m, by simp [maxIdAux, hm], le_trans him (le_max_right a m)⟩

theorem mem_le_max_id {tbl : List SqliteRow} {r : SqliteRow} (h : r ∈ tbl) :
    r.id ≤ max_id tbl := by
  obtain ⟨m, hm, him⟩ := maxIdAux_le (List.mem_map_of_mem SqliteRow.id h)
  simpa [max_id, hm] using him

theorem sqliteSelect_mem {tbl : List SqliteRow} {s : String} {a lim : Int}
    {r : SqliteRow} (h : r ∈ sqliteSelect tbl s a lim) :
    r ∈ tbl ∧ r.session_id = s ∧ r.delivered_at = none ∧ a < r.id := by
  have h1 : r ∈ List.insertionSort (fun x y : SqliteRow => x.id ≤ y.id)
      (tbl.filter fun q =>
        decide (q.session_id = s ∧ q.delivered_at = none ∧ a < q.id)) :=
    List.take_subset _ _ h
  have h2 := (List.perm_insertionSort (fun x y : SqliteRow => x.id ≤ y.id) _).mem_iff.mp h1
  have h3 := List.mem_filter.mp h2
  refine ⟨h3.1, ?_⟩
  simpa using h3.2

theorem sqliteSelect_sorted (tbl : List SqliteRow) (s : String) (a lim : Int) :
    (sqliteSelect tbl s a lim).Pairwise (fun x y => x.id ≤ y.id) := by
  have hs := List.sorted_insertionSort (fun x y : SqliteRow => x.id ≤ y.id)
    (tbl.filter fun q =>
      decide (q.session_id = s ∧ q.delivered_at = none ∧ a < q.id))
  exact List.Pairwise.sublist (List.take_sublist _ _) hs

theorem sqliteSelect_length (tbl : List SqliteRow) (s : String) (a lim : Int) :
    (sqliteSelect tbl s a lim).length ≤ lim.toNat := by
  simpa [sqliteSelect] using Nat.min_le_left lim.toNat _

theorem pgSelect_mem {tbl : List Message} {s : String} {a lim : Int}
    {m : Message} (h : m ∈ fetch_after_pg tbl s a lim) :
    m ∈ tbl ∧ m.session_id = s ∧ m.delivered_at = none ∧ a < m.id := by
  have h1 : m ∈ List.insertionSort (fun x y : Message => x.id ≤ y.id)
      (tbl.filter fun q =>
        decide (q.session_id = s ∧ q.delivered_at = none ∧ a < q.id)) :=
    List.take_subset _ _ h
  have h2 := (List.perm_insertionSort (fun x y : Message => x.id ≤ y.id) _).mem_iff.mp h1
  have h3 := List.mem_filter.mp h2
  refine ⟨h3.1, ?_⟩
  simpa using h3.2

theorem pgSelect_sorted (tbl : List Message) (s : String) (a lim : Int) :
    (fetch_after_pg tbl s a lim).Pairwise (fun x y => x.id ≤ y.id) := by
  have hs := List.sorted_insertionSort (fun x y : Message => x.id ≤ y.id)
    (tbl.filter fun q =>
      decide (q.session_id = s ∧ q.delivered_at = none ∧ a < q.id))
  exact List.Pairwise.sublist (List.take_sublist _ _) hs

/-- Claim C2: for every session, cursor and positive limit, fetch_after (both
backends) returns at most `limit` messages, each of that session, each with
id strictly greater than the cursor, each undelivered, sorted ascending by
id. -/
theorem fetch_after_contract (parse : String → Option Int)
    (tbl : List SqliteRow) (ptbl : List Message) (s : String)
    (a lim : Int) (hlim : 0 < lim) :
    (((fetch_after parse tbl s a lim).length : Int) ≤ lim
      ∧ (∀ m ∈ fetch_after parse tbl s a lim,
          m.session_id = s ∧ a < m.id ∧ m.delivered_at = none)
      ∧ ((fetch_after parse tbl s a lim).map Message.id).Sorted (· ≤ ·))
    ∧ (((fetch_after_pg ptbl s a lim).length : Int) ≤ lim
      ∧ (∀ m ∈ fetch_after_pg ptbl s a lim,
          m.session_id = s ∧ a < m.id ∧ m.delivered_at = none)
      ∧ ((fetch_after_pg ptbl s a lim).map Message.id).Sorted (· ≤ ·)) := by
  have hl : ((lim.toNat : Int)) = lim := Int.toNat_of_nonneg (le_of_lt hlim)
  refine ⟨⟨?_, ?_, ?_⟩, ⟨?_, ?_, ?_⟩⟩
  · have := sqliteSelect_length tbl s a lim
    rw [fetch_after, List.length_map]
    omega
  · intro m hm
    rw [fetch_after, List.mem_map] at hm
    obtain ⟨r, hr, hrm⟩ := hm
    obtain ⟨-, h1, h2, h3⟩ := sqliteSelect_mem hr
    subst hrm
    exact ⟨h1, h3, by simp [rowToMessage, h2]⟩
  · have hs := sqliteSelect_sorted tbl s a lim
    rw [fetch_after, List.map_map]
    exact List.pairwise_map.mpr (by simpa [rowToMessage] using hs)
  · have h : (fetch_after_pg ptbl s a lim).length ≤ lim.toNat := by
      simpa [fetch_after_pg] using Nat.min_le_left lim.toNat _
    omega
  · intro m hm
    obtain ⟨-, h1, h2, h3⟩ := pgSelect_mem hm
    exact ⟨h1, h3, h2⟩
  · exact List.pairwise_map.mpr (pgSelect_sorted ptbl s a lim)

theorem fetch_after_contract_witness :
    ((fetch_after (fun _ => none)
        [{ id := 5, session_id := "s", event_type := "e", data := "d",
           created_at := "t", delivered_at := none }] "s" 0 1).length : Int) ≤ 1 :=
  (fetch_after_contract (fun _ => none)
    [{ id := 5, session_id := "s", event_type := "e", data := "d",
       created_at := "t", delivered_at := none }] [] "s" 0 1 (by decide)).1.1

/-- Claim C3 counterexample: mark_delivered re-stamps an already-delivered
row with the later call's timestamp (both backends run an unconditional
UPDATE), so calling it twice at different instants does not yield the same
visible state as calling it once, and a later cleanup_delivered at cutoff 5
deletes the once-marked row (stamp 0) but not the twice-marked row
(stamp 10). -/
theorem mark_delivered_twice_differs :
    mark_delivered_pg 10 [1] (mark_delivered_pg 0 [1]
        [{ id := 1, session_id := "s", event_type := "e", data := "d",
           created_at := 0, delivered_at := none }])
      ≠ mark_delivered_pg 0 [1]
        [{ id := 1, session_id := "s", event_type := "e", data := "d",
           created_at := 0, delivered_at := none }]
    ∧ (cleanup_delivered_pg 5 (mark_delivered_pg 10 [1] (mark_delivered_pg 0 [1]
        [{ id := 1, session_id := "s", event_type := "e", data := "d",
           created_at := 0, delivered_at := none }]))).2
      ≠ (cleanup_delivered_pg 5 (mark_delivered_pg 0 [1]
        [{ id := 1, session_id := "s", event_type := "e", data := "d",
           created_at := 0, delivered_at := none }])).2 := by decide

/-- Claim C3 (amended): mark_delivered is last-writer-wins on delivered_at.
Two invocations with the same ids and the same timestamp yield exactly the
state of one invocation (both backends), and for arbitrary timestamps the
set of rows whose delivered_at is set (the fetch-visible partition) agrees
between one and two invocations. -/
theorem mark_delivered_eq_map (now : String) (ids : List Int)
    (tbl : List SqliteRow) :
    mark_delivered now ids tbl
      = tbl.map fun r =>
          if r.id ∈ ids then { r with delivered_at := some now } else r := by
  by_cases h : ids.isEmpty
  · rw [mark_delivered, if_pos h]
    rw [List.isEmpty_iff] at h
    subst h
    simp
  · rw [mark_delivered, if_neg h]

theorem mark_delivered_pg_eq_map (now : Int) (ids : List Int)
    (tbl : List Message) :
    mark_delivered_pg now ids tbl
      = tbl.map fun m =>
          if m.id ∈ ids then { m with delivered_at := some now } else m := by
  by_cases h : ids.isEmpty
  · rw [mark_delivered_pg, if_pos h]
    rw [List.isEmpty_iff] at h
    subst h
    simp
  · rw [mark_delivered_pg, if_neg h]

theorem mark_delivered_amended_idempotence (nowS : String) (nowI n1 n2 : Int)
    (ids : List Int) (tbl : List SqliteRow) (ptbl : List Message) :
    mark_delivered nowS ids (mark_delivered nowS ids tbl)
      = mark_delivered nowS ids tbl
    ∧ mark_delivered_pg nowI ids (mark_delivered_pg nowI ids ptbl)
      = mark_delivered_pg nowI ids ptbl
    ∧ (mark_delivered_pg n2 ids (mark_delivered_pg n1 ids ptbl)).map
        (fun m => m.delivered_at.isSome)
      = (mark_delivered_pg n1 ids ptbl).map (fun m => m.delivered_at.isSome) := by
  refine ⟨?_, ?_, ?_⟩
  · simp only [mark_delivered_eq_map, List.map_map]
    refine List.map_congr_left fun r _ => ?_
    by_cases hr : r.id ∈ ids <;> simp [Function.comp, hr]
  · simp only [mark_delivered_pg_eq_map, List.map_map]
    refine List.map_congr_left fun m _ => ?_
    by_cases hm : m.id ∈ ids <;> simp [Function.comp, hm]
  · simp only [mark_delivered_pg_eq_map, List.map_map]
    refine List.map_congr_left fun m _ => ?_
    by_cases hm : m.id ∈ ids <;> simp [Function.comp, hm]

/-- Claim C9: on the SQLite backend a malformed stored timestamp never makes
fetch_after fail: an unparsable created_at falls back to the epoch default,
an unparsable delivered_at is treated as absent, and every selected row is
still converted to a Message (fetch_after returns exactly one message per
selected row). -/
theorem sqlite_timestamps_never_fail (parse : String → Option Int)
    (r : SqliteRow) (ds : String) (hc : parse r.created_at = none)
    (hd : r.delivered_at = some ds) (hds : parse ds = none) :
    (rowToMessage parse r).created_at = 0
    ∧ (rowToMessage parse r).delivered_at = none
    ∧ ∀ tbl s a lim,
        (fetch_after parse tbl s a lim).length = (sqliteSelect tbl s a lim).length := by
  refine ⟨by simp [rowToMessage, hc], by simp [rowToMessage, hd, hds], ?_⟩
  intro tbl s a lim
  simp [fetch_after]

theorem sqlite_timestamps_never_fail_witness :
    (rowToMessage (fun _ => none)
        { id := 1, session_id := "s", event_type := "e", data := "d",
          created_at := "garbage", delivered_at := some "junk" }).created_at = 0
    ∧ (rowToMessage (fun _ => none)
        { id := 1, session_id := "s", event_type := "e", data := "d",
          created_at := "garbage", delivered_at := some "junk" }).delivered_at = none :=
  ⟨(sqlite_timestamps_never_fail (fun _ => none) _ "junk" rfl rfl rfl).1,
   (sqlite_timestamps_never_fail (fun _ => none) _ "junk" rfl rfl rfl).2.1⟩

/-- Embedded from core/src/db/postgres.rs lines 247-254,
`PostgresPool::max_id` over the list model of the table. -/
def max_id_pg (tbl : List Message) : Int :=
  (maxIdAux (tbl.map Message.id)).getD 0

theorem mem_le_max_id_pg {tbl : List Message} {m : Message} (h : m ∈ tbl) :
    m.id ≤ max_id_pg tbl := by
  obtain ⟨x, hx, hix⟩ := maxIdAux_le (List.mem_map_of_mem Message.id h)
  simpa [max_id_pg, hx] using hix

/-- Embedded from core/src/subscriber.rs lines 130-146: one iteration body of
the polling loop.  `res` is the outcome of `db.fetch_after(session,
current_last_id, 100)`: on `Ok(messages)` every message is delivered to the
callback and `last_id` is stored to that message's id (unconditionally, in
order); on `Err` nothing happens.  Returns (new cursor, delivered messages). -/
def pollStep (res : Option (List Message)) (cur : Int) : Int × List Message :=
  match res with
  | none => (cur, [])
  | some msgs => (msgs.foldl (fun _ m => m.id) cur, msgs)

/-- Embedded from core/src/subscriber.rs, `polling_subscriber_loop`: a finite
run of polling iterations.  Each element of `fs` is the store's response
function for that iteration (cursor passed to fetch_after ↦ outcome),
abstracting the changing table between polls. -/
def pollRun : List (Int → Option (List Message)) → Int → Int × List Message
  | [], cur => (cur, [])
  | f :: fs, cur =>
    let r := pollStep (f cur) cur
    let rest := pollRun fs r.1
    (rest.1, r.2 ++ rest.2)

/-- The fetch_after contract assumed by claim C6: a successful fetch returns
only ids strictly greater than the passed cursor, in strictly ascending
order (a chain above the cursor). -/
def FetchOk (f : Int → Option (List Message)) : Prop :=
  ∀ c msgs, f c = some msgs →
    List.Chain (fun x y => x < y) c (msgs.map Message.id)

/-- Embedded from core/src/subscriber.rs lines 210-241: one main-phase
iteration of the LISTEN/NOTIFY loop.  The notification payload is parsed as
an i64; only if it parses and exceeds the current cursor is fetch_after
issued (fetched = true); delivery then matches the polling body. -/
structure PushStep where
  cursor : Int
  delivered : List Message
  fetched : Bool
deriving DecidableEq, Repr

/-- Embedded from core/src/subscriber.rs lines 212-233 (the notification
branch of `postgres_subscriber_loop`). -/
def pushStep (parse : String → Option Int)
    (fetch : Int → Option (List Message)) (payload : String) (cur : Int) :
    PushStep :=
  match parse payload with
  | none => ⟨cur, [], false⟩
  | some msgId =>
    if cur < msgId then
      match fetch cur with
      | some msgs => ⟨msgs.foldl (fun _ m => m.id) cur, msgs, true⟩
      | none => ⟨cur, [], true⟩
    else ⟨cur, [], false⟩

/-- A finite run of main-phase LISTEN/NOTIFY iterations; each event carries
the notification payload and the store's response function at that moment. -/
def pushRun (parse : String → Option Int) :
    List (String × (Int → Option (List Message))) → Int → Int × List Message
  | [], cur => (cur, [])
  | e :: evs, cur =>
    let r := pushStep parse e.2 e.1 cur
    let rest := pushRun parse evs r.cursor
    (rest.1, r.delivered ++ rest.2)

/-- Embedded from core/src/subscriber.rs lines 31-88 with lines 115-162:
`Subscriber::new` reads `last_id ← db.max_id()` and starts the polling loop
from it. -/
def polling_subscriber_loop (fs : List (Int → Option (List Message)))
    (tbl : List SqliteRow) : Int × List Message :=
  pollRun fs (max_id tbl)

/-- Embedded from core/src/subscriber.rs lines 31-88 with lines 166-249:
`Subscriber::new` reads `last_id ← db.max_id()`, the LISTEN/NOTIFY loop
first catches up with one fetch_after(session, last_id, 1000) and then
consumes notifications. -/
def postgres_subscriber_loop (parse : String → Option Int)
    (catchF : Int → Option (List Message))
    (evs : List (String × (Int → Option (List Message))))
    (tbl : List Message) : Int × List Message :=
  let c0 := max_id_pg tbl
  let r0 := pollStep (catchF c0) c0
  let rest := pushRun parse evs r0.1
  (rest.1, r0.2 ++ rest.2)

theorem chain_lt_facts {c : Int} {msgs : List Message}
    (h : List.Chain (fun x y => x < y) c (msgs.map Message.id)) :
    c ≤ msgs.foldl (fun _ m => m.id) c ∧ ∀ m ∈ msgs, c < m.id := by
  induction msgs generalizing c with
  | nil => exact ⟨le_refl c, by simp⟩
  | cons m ms ih =>
    rw [List.map_cons, List.chain_cons] at h
    obtain ⟨h1, h2⟩ := h
    obtain ⟨ihle, ihmem⟩ := ih h2
    refine ⟨?_, ?_⟩
    · simpa using le_trans (le_of_lt h1) ihle
    · intro x hx
      rcases List.mem_cons.mp hx with hx | hx
      · subst hx; exact h1
      · exact lt_trans h1 (ihmem x hx)

theorem pollStep_facts {res : Option (List Message)} {cur : Int}
    (h : ∀ msgs, res = some msgs →
      List.Chain (fun x y => x < y) cur (msgs.map Message.id)) :
    cur ≤ (pollStep res cur).1 ∧ ∀ m ∈ (pollStep res cur).2, cur < m.id := by
  cases res with
  | none => exact ⟨le_refl cur, by simp [pollStep]⟩
  | some msgs =>
    obtain ⟨h1, h2⟩ := chain_lt_facts (h msgs rfl)
    exact ⟨h1, h2⟩

theorem pollRun_facts (fs : List (Int → Option (List Message))) (cur : Int)
    (H : ∀ f ∈ fs, FetchOk f) :
    cur ≤ (pollRun fs cur).1 ∧ ∀ m ∈ (pollRun fs cur).2, cur < m.id := by
  induction fs generalizing cur with
  | nil => exact ⟨le_refl cur, by simp [pollRun]⟩
  | cons f fs ih =>
    have hf : FetchOk f := H f (List.mem_cons_self f fs)
    obtain ⟨hs1, hs2⟩ := pollStep_facts (fun msgs hm => hf cur msgs hm)
    obtain ⟨hr1, hr2⟩ := ih (pollStep (f cur) cur).1
      (fun g hg => H g (List.mem_cons_of_mem f hg))
    refine ⟨le_trans hs1 hr1, ?_⟩
    intro m hm
    rw [pollRun] at hm
    simp only [List.mem_append] at hm
    rcases hm with hm | hm
    · exact hs2 m hm
    · exact lt_of_le_of_lt hs1 (hr2 m hm)
  
theorem pushStep_facts (parse : String → Option Int)
    (fetch : Int → Option (List Message)) (payload : String) (cur : Int)
    (h : FetchOk fetch) :
    cur ≤ (pushStep parse fetch payload cur).cursor
    ∧ ∀ m ∈ (pushStep parse fetch payload cur).delivered, cur < m.id := by
  cases hp : parse payload with
  | none => simp [pushStep, hp]
  | some msgId =>
    by_cases hlt : cur < msgId
    · cases hf : fetch cur with
      | none => simp [pushStep, hp, hlt, hf]
      | some msgs =>
        obtain ⟨h1, h2⟩ := chain_lt_facts (h cur msgs hf)
        simp only [pushStep, hp, if_pos hlt, hf]
        exact ⟨h1, h2⟩
    · simp [pushStep, hp, hlt]

theorem pushRun_facts (parse : String → Option Int)
    (evs : List (String × (Int → Option (List Message)))) (cur : Int)
    (H : ∀ e ∈ evs, FetchOk e.2) :
    cur ≤ (pushRun parse evs cur).1
    ∧ ∀ m ∈ (pushRun parse evs cur).2, cur < m.id := by
  induction evs generalizing cur with
  | nil => exact ⟨le_refl cur, by simp [pushRun]⟩
  | cons e evs ih =>
    have he : FetchOk e.2 := H e (List.mem_cons_self e evs)
    obtain ⟨hs1, hs2⟩ := pushStep_facts parse e.2 e.1 cur he
    obtain ⟨hr1, hr2⟩ := ih (pushStep parse e.2 e.1 cur).cursor
      (fun g hg => H g (List.mem_cons_of_mem e hg))
    refine ⟨le_trans hs1 hr1, ?_⟩
    intro m hm
    rw [pushRun] at hm
    simp only [List.mem_append] at hm
    rcases hm with hm | hm
    · exact hs2 m hm
    · exact lt_of_le_of_lt hs1 (hr2 m hm)

/-- Claim C5: a newly created subscriber initialises its cursor to
store.max_id() (0 on an empty store, an upper bound of every existing id),
so — under the fetch_after contract — no message delivered to the user
callback, by either the polling loop or the LISTEN/NOTIFY loop, is one that
already existed in the store at subscribe time. -/
theorem subscriber_ignores_preexisting (tbl : List SqliteRow)
    (ptbl : List Message) (fs : List (Int → Option (List Message)))
    (parse : String → Option Int) (catchF : Int → Option (List Message))
    (evs : List (String × (Int → Option (List Message))))
    (hfs : ∀ f ∈ fs, FetchOk f) (hcatch : FetchOk catchF)
    (hevs : ∀ e ∈ evs, FetchOk e.2) :
    max_id [] = 0 ∧ max_id_pg [] = 0
    ∧ (∀ r ∈ tbl, r.id ≤ max_id tbl)
    ∧ (∀ m ∈ (polling_subscriber_loop fs tbl).2, ∀ r ∈ tbl, r.id < m.id)
    ∧ (∀ m ∈ (postgres_subscriber_loop parse catchF evs ptbl).2,
        ∀ r ∈ ptbl, r.id < m.id) := by
  refine ⟨rfl, rfl, fun r hr => mem_le_max_id hr, ?_, ?_⟩
  · intro m hm r hr
    have hdel := (pollRun_facts fs (max_id tbl) hfs).2 m hm
    exact lt_of_le_of_lt (mem_le_max_id hr) hdel
  · intro m hm r hr
    set c0 := max_id_pg ptbl with hc0
    have hstep : c0 ≤ (pollStep (catchF c0) c0).1
        ∧ ∀ m ∈ (pollStep (catchF c0) c0).2, c0 < m.id :=
      pollStep_facts (fun msgs h => hcatch c0 msgs h)
    have hpush := pushRun_facts parse evs (pollStep (catchF c0) c0).1 hevs
    have hdel : c0 < m.id := by
      rw [postgres_subscriber_loop] at hm
      simp only [List.mem_append] at hm
      rcases hm with hm | hm
      · exact hstep.2 m hm
      · exact lt_of_le_of_lt hstep.1 (hpush.2 m hm)
    exact lt_of_le_of_lt (mem_le_max_id_pg hr) hdel

theorem subscriber_ignores_preexisting_witness :
    ({ id := 12, session_id := "s", event_type := "e", data := "d",
       created_at := 0, delivered_at := none } : Message)
      ∈ (polling_subscriber_loop
          [fun c => some [{ id := c + 5, session_id := "s", event_type := "e",
                            data := "d", created_at := 0,
                            delivered_at := none }]]
          [{ id := 7, session_id := "s", event_type := "e", data := "d",
             created_at := "t", delivered_at := none }]).2
    ∧ ({ id := 7, session_id := "s", event_type := "e", data := "d",
         created_at := "t",
         delivered_at := (none : Option String) } : SqliteRow).id
        < ({ id := 12, session_id := "s", event_type := "e", data := "d",
             created_at := 0, delivered_at := none } : Message).id :=
  ⟨by decide,
   (subscriber_ignores_preexisting
      [{ id := 7, session_id := "s", event_type := "e", data := "d",
         created_at := "t", delivered_at := none }] []
      [fun c => some [{ id := c + 5, session_id := "s", event_type := "e",
                        data := "d", created_at := 0,
                        delivered_at := none }]]
      (fun _ => none) (fun _ => none) []
      (by
        intro g hg c msgs h
        simp only [List.mem_singleton] at hg
        subst hg
        simp only [Option.some.injEq] at h
        subst h
        simp only [List.map_cons, List.map_nil]
        exact List.chain_cons.mpr ⟨by omega, List.Chain.nil⟩)
      (fun c msgs h => by simp at h) (by simp)).2.2.2.1
     { id := 12, session_id := "s", event_type := "e", data := "d",
       created_at := 0, delivered_at := none } (by decide)
     { id := 7, session_id := "s", event_type := "e", data := "d",
       created_at := "t", delivered_at := none } (by decide)⟩

/-- Claim C6: under the hypothesis that fetch_after returns only ids
strictly greater than the passed cursor in ascending order, the subscriber
cursor last_id is monotone non-decreasing: every polling iteration and every
LISTEN/NOTIFY iteration yields a cursor at least as large as the previous
one, a failed fetch leaves the cursor unchanged, and whole runs of either
loop never decrease it. -/
theorem cursor_monotone (fs : List (Int → Option (List Message)))
    (parse : String → Option Int)
    (evs : List (String × (Int → Option (List Message)))) (cur : Int)
    (hfs : ∀ f ∈ fs, FetchOk f) (hevs : ∀ e ∈ evs, FetchOk e.2) :
    (∀ f ∈ fs, ∀ c, c ≤ (pollStep (f c) c).1)
    ∧ (∀ c, pollStep none c = (c, []))
    ∧ cur ≤ (pollRun fs cur).1
    ∧ (∀ e ∈ evs, ∀ c, c ≤ (pushStep parse e.2 e.1 c).cursor)
    ∧ cur ≤ (pushRun parse evs cur).1 := by
  refine ⟨?_, fun c => rfl, (pollRun_facts fs cur hfs).1, ?_,
    (pushRun_facts parse evs cur hevs).1⟩
  · intro f hf c
    exact (pollStep_facts (fun msgs hm => hfs f hf c msgs hm)).1
  · intro e he c
    exact (pushStep_facts parse e.2 e.1 c (hevs e he)).1

theorem cursor_monotone_witness :
    (3 : Int) ≤ (pollRun [fun c => some [{ id := c + 5, session_id := "s",
                                           event_type := "e", data := "d",
                                           created_at := 0,
                                           delivered_at := none }]] 3).1 :=
  (cursor_monotone [fun c => some [{ id := c + 5, session_id := "s",
                                     event_type := "e", data := "d",
                                     created_at := 0,
                                     delivered_at := none }]]
    (fun _ => none) [] 3
    (by
      intro f hf c msgs h
      simp only [List.mem_singleton] at hf
      subst hf
      simp only [Option.some.injEq] at h
      subst h
      simp only [List.map_cons, List.map_nil]
      exact List.chain_cons.mpr ⟨by omega, List.Chain.nil⟩)
    (by simp)).2.2.1

/-- Claim C10: in the LISTEN/NOTIFY main phase, a notification whose payload
does not parse as an i64, or whose parsed id does not exceed the current
cursor, is silently ignored: no fetch_after call is issued, no message is
delivered, the cursor is unchanged, and the remaining run is exactly the
run without that notification. -/
theorem push_ignores_bad_notification (parse : String → Option Int)
    (fetch : Int → Option (List Message)) (payload : String) (cur : Int)
    (h : parse payload = none ∨ ∃ i, parse payload = some i ∧ i ≤ cur) :
    pushStep parse fetch payload cur
      = { cursor := cur, delivered := [], fetched := false }
    ∧ ∀ evs, pushRun parse ((payload, fetch) :: evs) cur
        = pushRun parse evs cur := by
  have hstep : pushStep parse fetch payload cur
      = { cursor := cur, delivered := [], fetched := false } := by
    rcases h with h | ⟨i, hi, hile⟩
    · simp [pushStep, h]
    · simp [pushStep, hi, not_lt.mpr hile]
  refine ⟨hstep, fun evs => ?_⟩
  rw [pushRun]
  simp [hstep]

theorem push_ignores_bad_notification_witness :
    pushStep (fun _ => none) (fun _ => none) "not-a-number" 4
      = { cursor := 4, delivered := [], fetched := false } :=
  (push_ignores_bad_notification (fun _ => none) (fun _ => none)
    "not-a-number" 4 (Or.inl rfl)).1

/-- Embedded from core/src/writer.rs lines 18-22: the commands travelling on
the writer channel.  A flush barrier is identified by a Nat tag standing for
its oneshot sender. -/
inductive WriterCommand where
  | message (m : Message)
  | flush (b : Nat)
  | shutdown
deriving DecidableEq, Repr

/-- Model of the bounded tokio mpsc channel the writer owns: buffered
commands, capacity (`max_queue_size`), and whether the receiver half (the
worker) is gone. -/
structure Channel where
  buf : List WriterCommand
  cap : Nat
  closed : Bool
deriving DecidableEq, Repr

/-- Outcome of `tokio::sync::mpsc::Sender::try_send`. -/
inductive TrySendResult where
  | okSent
  | fullErr
  | closedErr
deriving DecidableEq, Repr

/-- Model of `try_send`: a closed channel reports Closed, a full channel
reports Full, otherwise the command is appended without waiting. -/
def trySend (ch : Channel) (c : WriterCommand) : Channel × TrySendResult :=
  if ch.closed then (ch, .closedErr)
  else if ch.buf.length < ch.cap then
    ({ ch with buf := ch.buf ++ [c] }, .okSent)
  else (ch, .fullErr)

/-- Embedded from core/src/error.rs: the crate error enum (payloads reduced
to their formatted strings). -/
inductive Error where
  | Database (s : String)
  | Json (s : String)
  | ChannelSend
  | ChannelRecv
  | Config (s : String)
  | Shutdown
  | SessionNotFound (s : String)
deriving DecidableEq, Repr

/-- Embedded from core/src/writer.rs lines 47-56, `MessageWriter::enqueue`:
try_send of Message(m); Ok maps to Ok(true), Full to Ok(false) (message
dropped, no error), Closed to Err(Error::Shutdown). -/
def enqueue (ch : Channel) (m : Message) : Channel × Except Error Bool :=
  let r := trySend ch (.message m)
  match r.2 with
  | .okSent => (r.1, .ok true)
  | .fullErr => (r.1, .ok false)
  | .closedErr => (r.1, .error .Shutdown)

/-- Embedded from core/src/pubsub.rs lines 56-64, `PubSub::broadcast`:
construct Message::new and delegate to the writer's enqueue, returning its
result unchanged. -/
def broadcast (ch : Channel) (now : Int)
    (session_id event_type data : String) : Channel × Except Error Bool :=
  enqueue ch (Message.new now session_id event_type data)

/-- Claim C8: non-blocking publish never waits: enqueue returns Ok(true) and
appends the message exactly when the channel is open and below capacity,
returns Ok(false) (not an error) and leaves the channel unchanged exactly
when the channel is open and at capacity, returns Err(Shutdown) exactly when
the worker side is gone, and the facade's broadcast returns the writer's
result unchanged. -/
theorem enqueue_nonblocking (ch : Channel) (m : Message) (now : Int)
    (s e d : String) :
    ((enqueue ch m).2 = .ok true
      ↔ ch.closed = false ∧ ch.buf.length < ch.cap)
    ∧ ((enqueue ch m).2 = .ok false
      ↔ ch.closed = false ∧ ¬ ch.buf.length < ch.cap)
    ∧ ((enqueue ch m).2 = .error .Shutdown ↔ ch.closed = true)
    ∧ ((enqueue ch m).2 = .ok true
      → (enqueue ch m).1.buf = ch.buf ++ [.message m])
    ∧ ((enqueue ch m).2 ≠ .ok true → (enqueue ch m).1 = ch)
    ∧ broadcast ch now s e d = enqueue ch (Message.new now s e d) := by
  by_cases hc : ch.closed
  · refine ⟨?_, ?_, ?_, ?_, ?_, rfl⟩ <;>
      simp [enqueue, trySend, hc]
  · by_cases hl : ch.buf.length < ch.cap
    · refine ⟨?_, ?_, ?_, ?_, ?_, rfl⟩ <;>
        simp [enqueue, trySend, hc, hl]
    · refine ⟨?_, ?_, ?_, ?_, ?_, rfl⟩ <;>
        simp [enqueue, trySend, hc, hl]

/-- Observable events of the writer worker: a call to store.insert_batch
with the batch and the oracle-decided outcome (drain marks the final write
performed on the shutdown drain path), and the signalling of a flush
barrier. -/
inductive WEvent where
  | wrote (batch : List Message) (ok : Bool) (drain : Bool)
  | signaled (b : Nat)
deriving DecidableEq, Repr

/-- Embedded from core/src/writer.rs lines 174-189, `write_batch`: one call
to db.insert_batch; `fails` is the oracle of store outcomes, consumed one
entry per write (missing entries default to success); the batch is cleared
afterwards in either case, which the caller models by dropping it. -/
def write_batch (fails : List Bool) (batch : List Message) (drain : Bool) :
    List WEvent × List Bool :=
  ([.wrote batch (!fails.headD false) drain], fails.tail)

/-- Embedded from core/src/writer.rs lines 191-195, `signal_flush_waiters`:
every collected barrier is signalled, in collection order. -/
def signal_flush_waiters (waiters : List Nat) : List WEvent :=
  waiters.map WEvent.signaled

/-- Embedded from core/src/writer.rs lines 160-172, `drain_remaining`:
non-blockingly drain commands into the batch and barrier set.  `d` bounds
how many commands are still available for try_recv (commands beyond it
arrive too late and are never seen); Shutdown commands are discarded. -/
def drain_remaining (d : Nat) (cmds : List WriterCommand)
    (batch : List Message) (waiters : List Nat) : List Message × List Nat :=
  match d, cmds with
  | 0, _ => (batch, waiters)
  | _ + 1, [] => (batch, waiters)
  | dd + 1, .message m :: rest => drain_remaining dd rest (batch ++ [m]) waiters
  | dd + 1, .flush b :: rest => drain_remaining dd rest batch (waiters ++ [b])
  | dd + 1, .shutdown :: rest => drain_remaining dd rest batch waiters

/-- Embedded from core/src/writer.rs lines 114-124 and 138-144: the shutdown
path — drain the channel, perform one final write if the batch is non-empty,
signal all barriers, and exit. -/
def shutdownFinish (fails : List Bool) (d : Nat) (cmds : List WriterCommand)
    (batch : List Message) (waiters : List Nat) : List WEvent :=
  let r := drain_remaining d cmds batch waiters
  (if r.1.isEmpty then [] else (write_batch fails r.1 true).1)
    ++ signal_flush_waiters r.2

/-- Result of the opportunistic batch-filling loop. -/
structure FillResult where
  rest : List WriterCommand
  batch : List Message
  waiters : List Nat
  sawShutdown : Bool
deriving DecidableEq, Repr

/-- Embedded from core/src/writer.rs lines 128-148: the inner try_recv loop:
while the batch is below batch_size, take available commands — a Message is
appended, a Flush stops filling (write now), a Shutdown diverts to the
drain path.  `avail` bounds how many commands are momentarily available;
when it runs out try_recv reports Empty and filling stops. -/
def fillLoop (batchSize : Nat) (avail : Nat) (cmds : List WriterCommand)
    (batch : List Message) (waiters : List Nat) : FillResult :=
  if batch.length < batchSize then
    match avail, cmds with
    | 0, _ => ⟨cmds, batch, waiters, false⟩
    | _ + 1, [] => ⟨[], batch, waiters, false⟩
    | a + 1, .message m :: rest =>
      fillLoop batchSize a rest (batch ++ [m]) waiters
    | _ + 1, .flush b :: rest => ⟨rest, batch, waiters ++ [b], false⟩
    | _ + 1, .shutdown :: rest => ⟨rest, batch, waiters, true⟩
  else ⟨cmds, batch, waiters, false⟩

/-- One full iteration of the worker loop after the blocking recv has
dispatched (core/src/writer.rs lines 128-156): fill the batch, divert to the
shutdown path if a Shutdown was drawn, otherwise write the batch if
non-empty, signal the collected barriers, and continue via `k`. -/
def writerIter (batchSize a d : Nat) (cmds : List WriterCommand)
    (fails : List Bool) (batch : List Message) (waiters : List Nat)
    (k : List WriterCommand → List Bool → List WEvent) : List WEvent :=
  let r := fillLoop batchSize a cmds batch waiters
  if r.sawShutdown then shutdownFinish fails d r.rest r.batch r.waiters
  else
    let w := if r.batch.isEmpty then (([] : List WEvent), fails)
             else write_batch fails r.batch false
    w.1 ++ signal_flush_waiters r.waiters ++ k r.rest w.2

/-- Embedded from core/src/writer.rs lines 93-158, `writer_loop`: the worker
processes the sequence of commands it receives from the channel, in order.
`fuel` bounds the number of outer iterations (the trace of a longer run
extends that of a shorter one); `sched` supplies, per iteration, how many
commands are already available to try_recv and to the shutdown drain; upon
channel closure (no commands left) the worker exits.  Returns the event
trace. -/
def writer_loop (batchSize : Nat) :
    Nat → List WriterCommand → List (Nat × Nat) → List Bool → List WEvent
  | 0, _, _, _ => []
  | _ + 1, [], _, _ => []
  | fuel + 1, c :: rest, sched, fails =>
    let a := (sched.headD (0, 0)).1
    let d := (sched.headD (0, 0)).2
    match c with
    | .shutdown => shutdownFinish fails d rest [] []
    | .message m =>
      writerIter batchSize a d rest fails [m] []
        (fun rest2 fails2 => writer_loop batchSize fuel rest2 sched.tail fails2)
    | .flush b =>
      writerIter batchSize a d rest fails [] [b]
        (fun rest2 fails2 => writer_loop batchSize fuel rest2 sched.tail fails2)

/-- The messages carried by a command sequence, in order. -/
def msgsOf : List WriterCommand → List Message
  | [] => []
  | .message m :: r => m :: msgsOf r
  | .flush _ :: r => msgsOf r
  | .shutdown :: r => msgsOf r

/-- The flush barriers carried by a command sequence, in order. -/
def flushesOf : List WriterCommand → List Nat
  | [] => []
  | .message _ :: r => flushesOf r
  | .flush b :: r => b :: flushesOf r
  | .shutdown :: r => flushesOf r

/-- All messages passed to store.insert_batch along a trace, in order. -/
def writtenOf : List WEvent → List Message
  | [] => []
  | .wrote b _ _ :: r => b ++ writtenOf r
  | .signaled _ :: r => writtenOf r

theorem msgsOf_append (l1 l2 : List WriterCommand) :
    msgsOf (l1 ++ l2) = msgsOf l1 ++ msgsOf l2 := by
  induction l1 with
  | nil => rfl
  | cons c r ih => cases c <;> simp [msgsOf, ih]

theorem flushesOf_append (l1 l2 : List WriterCommand) :
    flushesOf (l1 ++ l2) = flushesOf l1 ++ flushesOf l2 := by
  induction l1 with
  | nil => rfl
  | cons c r ih => cases c <;> simp [flushesOf, ih]

theorem writtenOf_append (l1 l2 : List WEvent) :
    writtenOf (l1 ++ l2) = writtenOf l1 ++ writtenOf l2 := by
  induction l1 with
  | nil => rfl
  | cons e r ih => cases e <;> simp [writtenOf, ih]

theorem writtenOf_signal (ws : List Nat) :
    writtenOf (signal_flush_waiters ws) = [] := by
  induction ws with
  | nil => rfl
  | cons w r ih => simpa [signal_flush_waiters, writtenOf] using ih

theorem signaled_not_mem_signal {b : Nat} {ws : List Nat} (h : b ∉ ws) :
    WEvent.signaled b ∉ signal_flush_waiters ws := by
  intro hmem
  rw [signal_flush_waiters, List.mem_map] at hmem
  obtain ⟨x, hx, hxb⟩ := hmem
  cases hxb
  exact h hx

theorem fillLoop_full {batchSize : Nat} (avail : Nat)
    (cmds : List WriterCommand) {batch : List Message} (waiters : List Nat)
    (h : ¬ batch.length < batchSize) :
    fillLoop batchSize avail cmds batch waiters = ⟨cmds, batch, waiters, false⟩ := by
  rw [fillLoop.eq_def, if_neg h]

theorem fillLoop_zero {batchSize : Nat} (cmds : List WriterCommand)
    (batch : List Message) (waiters : List Nat) :
    fillLoop batchSize 0 cmds batch waiters = ⟨cmds, batch, waiters, false⟩ := by
  rw [fillLoop.eq_def]
  split <;> rfl

theorem fillLoop_nil {batchSize : Nat} (a : Nat) (batch : List Message)
    (waiters : List Nat) :
    fillLoop batchSize (a + 1) [] batch waiters = ⟨[], batch, waiters, false⟩ := by
  rw [fillLoop.eq_def]
  split <;> rfl

theorem fillLoop_msg {batchSize : Nat} (a : Nat) (m : Message)
    (rest : List WriterCommand) {batch : List Message} (waiters : List Nat)
    (h : batch.length < batchSize) :
    fillLoop batchSize (a + 1) (.message m :: rest) batch waiters
      = fillLoop batchSize a rest (batch ++ [m]) waiters := by
  rw [fillLoop.eq_def, if_pos h]

theorem fillLoop_flush {batchSize : Nat} (a : Nat) (b : Nat)
    (rest : List WriterCommand) {batch : List Message} (waiters : List Nat)
    (h : batch.length < batchSize) :
    fillLoop batchSize (a + 1) (.flush b :: rest) batch waiters
      = ⟨rest, batch, waiters ++ [b], false⟩ := by
  rw [fillLoop.eq_def, if_pos h]

theorem fillLoop_shutdown {batchSize : Nat} (a : Nat)
    (rest : List WriterCommand) {batch : List Message} (waiters : List Nat)
    (h : batch.length < batchSize) :
    fillLoop batchSize (a + 1) (.shutdown :: rest) batch waiters
      = ⟨rest, batch, waiters, true⟩ := by
  rw [fillLoop.eq_def, if_pos h]

theorem fillLoop_spec (batchSize avail : Nat) :
    ∀ (cmds : List WriterCommand) (batch : List Message) (waiters : List Nat),
    ∃ cons, cmds = cons ++ (fillLoop batchSize avail cmds batch waiters).rest
      ∧ (fillLoop batchSize avail cmds batch waiters).batch = batch ++ msgsOf cons
      ∧ (fillLoop batchSize avail cmds batch waiters).waiters
          = waiters ++ flushesOf cons := by
  induction avail with
  | zero =>
    intro cmds batch waiters
    exact ⟨[], by simp [fillLoop_zero, msgsOf, flushesOf]⟩
  | succ a ih =>
    intro cmds batch waiters
    by_cases hlen : batch.length < batchSize
    · cases cmds with
      | nil => exact ⟨[], by simp [fillLoop_nil, msgsOf, flushesOf]⟩
      | cons c rest =>
        cases c with
        | message m =>
          obtain ⟨cons, h1, h2, h3⟩ := ih rest (batch ++ [m]) waiters
          refine ⟨.message m :: cons, ?_, ?_, ?_⟩
          · rw [fillLoop_msg a m rest waiters hlen, List.cons_append, ← h1]
          · rw [fillLoop_msg a m rest waiters hlen, h2, msgsOf]
            simp
          · rw [fillLoop_msg a m rest waiters hlen, h3, flushesOf]
        | flush b =>
          refine ⟨[.flush b], ?_⟩
          rw [fillLoop_flush a b rest waiters hlen]
          simp [msgsOf, flushesOf]
        | shutdown =>
          refine ⟨[.shutdown], ?_⟩
          rw [fillLoop_shutdown a rest waiters hlen]
          simp [msgsOf, flushesOf]
    · exact ⟨[], by simp [fillLoop_full, hlen, msgsOf, flushesOf]⟩

theorem fillLoop_batch_le (batchSize avail : Nat) :
    ∀ (cmds : List WriterCommand) (batch : List Message) (waiters : List Nat),
    batch.length ≤ batchSize →
    (fillLoop batchSize avail cmds batch waiters).batch.length ≤ batchSize := by
  induction avail with
  | zero =>
    intro cmds batch waiters h
    simpa [fillLoop_zero] using h
  | succ a ih =>
    intro cmds batch waiters h
    by_cases hlen : batch.length < batchSize
    · cases cmds with
      | nil => simpa [fillLoop_nil] using h
      | cons c rest =>
        cases c with
        | message m =>
          rw [fillLoop_msg a m rest waiters hlen]
          exact ih rest (batch ++ [m]) waiters (by simp; omega)
        | flush b => simpa [fillLoop_flush a b rest waiters hlen] using h
        | shutdown => simpa [fillLoop_shutdown a rest waiters hlen] using h
    · simpa [fillLoop_full, hlen] using h

theorem drain_remaining_spec (d : Nat) :
    ∀ (cmds : List WriterCommand) (batch : List Message) (waiters : List Nat),
    ∃ cons rest, cmds = cons ++ rest
      ∧ (drain_remaining d cmds batch waiters).1 = batch ++ msgsOf cons
      ∧ (drain_remaining d cmds batch waiters).2 = waiters ++ flushesOf cons := by
  induction d with
  | zero =>
    intro cmds batch waiters
    exact ⟨[], cmds, by simp [drain_remaining, msgsOf, flushesOf]⟩
  | succ dd ih =>
    intro cmds batch waiters
    cases cmds with
    | nil => exact ⟨[], [], by simp [drain_remaining, msgsOf, flushesOf]⟩
    | cons c rest =>
      cases c with
      | message m =>
        obtain ⟨cons, rest2, h1, h2, h3⟩ := ih rest (batch ++ [m]) waiters
        refine ⟨.message m :: cons, rest2, ?_, ?_, ?_⟩
        · rw [List.cons_append, ← h1]
        · rw [drain_remaining, h2, msgsOf]; simp
        · rw [drain_remaining, h3, flushesOf]
      | flush b =>
        obtain ⟨cons, rest2, h1, h2, h3⟩ := ih rest batch (waiters ++ [b])
        refine ⟨.flush b :: cons, rest2, ?_, ?_, ?_⟩
        · rw [List.cons_append, ← h1]
        · rw [drain_remaining, h2, msgsOf]
        · rw [drain_remaining, h3, flushesOf]; simp
      | shutdown =>
        obtain ⟨cons, rest2, h1, h2, h3⟩ := ih rest batch waiters
        refine ⟨.shutdown :: cons, rest2, ?_, ?_, ?_⟩
        · rw [List.cons_append, ← h1]
        · rw [drain_remaining, h2, msgsOf]
        · rw [drain_remaining, h3, flushesOf]

/-- Erase the store-outcome flag from a trace: what the worker did, ignoring
whether each insert_batch succeeded. -/
def stripOk : List WEvent → List WEvent :=
  List.map fun e =>
    match e with
    | .wrote b _ dr => .wrote b true dr
    | .signaled x => .signaled x

theorem stripOk_append (l1 l2 : List WEvent) :
    stripOk (l1 ++ l2) = stripOk l1 ++ stripOk l2 :=
  List.map_append _ l1 l2

theorem stripOk_signal (ws : List Nat) :
    stripOk (signal_flush_waiters ws) = signal_flush_waiters ws := by
  simp [stripOk, signal_flush_waiters, List.map_map, Function.comp]

theorem stripOk_shutdownFinish (fails fails' : List Bool) (d : Nat)
    (cmds : List WriterCommand) (batch : List Message) (waiters : List Nat) :
    stripOk (shutdownFinish fails d cmds batch waiters)
      = stripOk (shutdownFinish fails' d cmds batch waiters) := by
  rw [shutdownFinish, shutdownFinish, stripOk_append, stripOk_append]
  congr 1
  split <;> simp [stripOk, write_batch]

theorem stripOk_writePart (fails fails' : List Bool) (batch : List Message) :
    stripOk (if batch.isEmpty then (([] : List WEvent), fails)
      else write_batch fails batch false).1
    = stripOk (if batch.isEmpty then (([] : List WEvent), fails')
      else write_batch fails' batch false).1 := by
  split <;> simp [stripOk, write_batch]

theorem writtenOf_writePart (fails : List Bool) (batch : List Message) :
    writtenOf (if batch.isEmpty then (([] : List WEvent), fails)
      else write_batch fails batch false).1 = batch := by
  split
  · next h =>
    rw [List.isEmpty_iff] at h
    simp [h, writtenOf]
  · simp [write_batch, writtenOf]

theorem writer_loop_stripOk (batchSize fuel : Nat) :
    ∀ (cmds : List WriterCommand) (sched : List (Nat × Nat))
      (fails fails' : List Bool),
    stripOk (writer_loop batchSize fuel cmds sched fails)
      = stripOk (writer_loop batchSize fuel cmds sched fails') := by
  induction fuel with
  | zero => intro cmds sched fails fails'; rfl
  | succ fuel ih =>
    intro cmds sched fails fails'
    cases cmds with
    | nil => rfl
    | cons c rest =>
      cases c with
      | shutdown =>
        exact stripOk_shutdownFinish fails fails' _ rest [] []
      | message m =>
        simp only [writer_loop, writerIter]
        set r := fillLoop batchSize (sched.headD (0, 0)).1 rest [m] [] with hr
        split
        · exact stripOk_shutdownFinish fails fails' _ _ _ _
        · rw [stripOk_append, stripOk_append, stripOk_append, stripOk_append,
            stripOk_writePart fails fails' r.batch,
            ih r.rest sched.tail
              (if r.batch.isEmpty then (([] : List WEvent), fails)
                else write_batch fails r.batch false).2
              (if r.batch.isEmpty then (([] : List WEvent), fails')
                else write_batch fails' r.batch false).2]
      | flush b =>
        simp only [writer_loop, writerIter]
        set r := fillLoop batchSize (sched.headD (0, 0)).1 rest [] [b] with hr
        split
        · exact stripOk_shutdownFinish fails fails' _ _ _ _
        · rw [stripOk_append, stripOk_append, stripOk_append, stripOk_append,
            stripOk_writePart fails fails' r.batch,
            ih r.rest sched.tail
              (if r.batch.isEmpty then (([] : List WEvent), fails)
                else write_batch fails r.batch false).2
              (if r.batch.isEmpty then (([] : List WEvent), fails')
                else write_batch fails' r.batch false).2]

theorem writtenOf_shutdownFinish (fails : List Bool) (d : Nat)
    (cmds : List WriterCommand) (batch : List Message) (waiters : List Nat) :
    writtenOf (shutdownFinish fails d cmds batch waiters)
      = (drain_remaining d cmds batch waiters).1 := by
  rw [shutdownFinish, writtenOf_append, writtenOf_signal, List.append_nil]
  split
  · next h =>
    rw [List.isEmpty_iff] at h
    simp [h, writtenOf]
  · simp [write_batch, writtenOf]

theorem writer_loop_written (batchSize fuel : Nat) :
    ∀ (cmds : List WriterCommand) (sched : List (Nat × Nat))
      (fails : List Bool),
    ∃ cons rest, cmds = cons ++ rest
      ∧ writtenOf (writer_loop batchSize fuel cmds sched fails) = msgsOf cons := by
  induction fuel with
  | zero =>
    intro cmds sched fails
    exact ⟨[], cmds, by simp [writer_loop, writtenOf, msgsOf]⟩
  | succ fuel ih =>
    intro cmds sched fails
    cases cmds with
    | nil => exact ⟨[], [], by simp [writer_loop, writtenOf, msgsOf]⟩
    | cons c rest =>
      cases c with
      | shutdown =>
        obtain ⟨consD, restD, h1, h2, h3⟩ :=
          drain_remaining_spec ((sched.headD (0, 0)).2) rest [] []
        refine ⟨.shutdown :: consD, restD, by rw [List.cons_append, ← h1], ?_⟩
        rw [writer_loop, writtenOf_shutdownFinish, h2, msgsOf]
        simp
      | message m =>
        simp only [writer_loop, writerIter]
        set r := fillLoop batchSize (sched.headD (0, 0)).1 rest [m] [] with hr
        obtain ⟨consF, hf1, hf2, hf3⟩ :=
          fillLoop_spec batchSize ((sched.headD (0, 0)).1) rest [m] []
        rw [← hr] at hf1 hf2 hf3
        split
        · obtain ⟨consD, restD, h1, h2, h3⟩ :=
            drain_remaining_spec ((sched.headD (0, 0)).2) r.rest r.batch r.waiters
          refine ⟨.message m :: (consF ++ consD), restD, ?_, ?_⟩
          · rw [List.cons_append, List.append_assoc, ← h1, ← hf1]
          · rw [writtenOf_shutdownFinish, h2, hf2, msgsOf, msgsOf_append]
            simp
        · obtain ⟨cons2, rest2, h1, h2⟩ := ih r.rest sched.tail
            (if r.batch.isEmpty then (([] : List WEvent), fails)
              else write_batch fails r.batch false).2
          refine ⟨.message m :: (consF ++ cons2), rest2, ?_, ?_⟩
          · rw [List.cons_append, List.append_assoc, ← h1, ← hf1]
          · rw [writtenOf_append, writtenOf_append, writtenOf_signal, h2,
              writtenOf_writePart fails r.batch, hf2, msgsOf, msgsOf_append]
            simp
      | flush b =>
        simp only [writer_loop, writerIter]
        set r := fillLoop batchSize (sched.headD (0, 0)).1 rest [] [b] with hr
        obtain ⟨consF, hf1, hf2, hf3⟩ :=
          fillLoop_spec batchSize ((sched.headD (0, 0)).1) rest [] [b]
        rw [← hr] at hf1 hf2 hf3
        split
        · obtain ⟨consD, restD, h1, h2, h3⟩ :=
            drain_remaining_spec ((sched.headD (0, 0)).2) r.rest r.batch r.waiters
          refine ⟨.flush b :: (consF ++ consD), restD, ?_, ?_⟩
          · rw [List.cons_append, List.append_assoc, ← h1, ← hf1]
          · rw [writtenOf_shutdownFinish, h2, hf2, msgsOf, msgsOf_append]
            simp
        · obtain ⟨cons2, rest2, h1, h2⟩ := ih r.rest sched.tail
            (if r.batch.isEmpty then (([] : List WEvent), fails)
              else write_batch fails r.batch false).2
          refine ⟨.flush b :: (consF ++ cons2), rest2, ?_, ?_⟩
          · rw [List.cons_append, List.append_assoc, ← h1, ← hf1]
          · rw [writtenOf_append, writtenOf_append, writtenOf_signal, h2,
              writtenOf_writePart fails r.batch, hf2, msgsOf, msgsOf_append]
            simp

theorem not_mem_flushesOf_cons {b : Nat} {c : WriterCommand}
    {l : List WriterCommand} (h : b ∉ flushesOf (c :: l)) : b ∉ flushesOf l := by
  cases c <;> simp [flushesOf] at h ⊢ <;> tauto

theorem msgsOf_cons_eq (c : WriterCommand) (l : List WriterCommand) :
    msgsOf (c :: l) = msgsOf [c] ++ msgsOf l := by
  cases c <;> simp [msgsOf]

theorem flushesOf_cons_eq (c : WriterCommand) (l : List WriterCommand) :
    flushesOf (c :: l) = flushesOf [c] ++ flushesOf l := by
  cases c <;> simp [flushesOf]

theorem append_split_notmem {α : Type} {p l t1 t2 : List α} {x : α}
    (h : p ++ l = t1 ++ x :: t2) (hxp : x ∉ p) (hxt : x ∉ t1) :
    ∃ t1', t1 = p ++ t1' ∧ l = t1' ++ x :: t2 := by
  induction p generalizing t1 with
  | nil => exact ⟨t1, rfl, h⟩
  | cons a p' ih =>
    cases t1 with
    | nil =>
      rw [List.nil_append, List.cons_append] at h
      injection h with h1 h2
      subst h1
      exact absurd (List.mem_cons_self a p') hxp
    | cons a' t1'' =>
      rw [List.cons_append, List.cons_append] at h
      injection h with h1 h2
      subst h1
      obtain ⟨t1', ht1, hl⟩ := ih h2
        (fun hm => hxp (List.mem_cons_of_mem a hm))
        (fun hm => hxt (List.mem_cons_of_mem a hm))
      exact ⟨t1', by rw [ht1, List.cons_append], hl⟩

theorem flush_mem_prefix {pre post cons rest : List WriterCommand} {b : Nat}
    (h : pre ++ .flush b :: post = cons ++ rest) (hb : b ∉ flushesOf pre)
    (hc : b ∈ flushesOf cons) :
    ∃ mid, cons = pre ++ .flush b :: mid := by
  induction pre generalizing cons with
  | nil =>
    cases cons with
    | nil => simp [flushesOf] at hc
    | cons c cons' =>
      rw [List.nil_append, List.cons_append] at h
      injection h with h1 h2
      subst h1
      exact ⟨cons', rfl⟩
  | cons p pre' ih =>
    cases cons with
    | nil => simp [flushesOf] at hc
    | cons c cons' =>
      rw [List.cons_append, List.cons_append] at h
      injection h with h1 h2
      subst h1
      have hb' : b ∉ flushesOf pre' := not_mem_flushesOf_cons hb
      have hc' : b ∈ flushesOf cons' := by
        cases p with
        | flush x =>
          rw [flushesOf] at hc
          rcases List.mem_cons.mp hc with hbx | h2'
          · subst hbx
            exact absurd (by rw [flushesOf]; exact List.mem_cons_self _ _) hb
          · exact h2'
        | message m => simpa [flushesOf] using hc
        | shutdown => simpa [flushesOf] using hc
      obtain ⟨mid, hmid⟩ := ih h2 hb' hc'
      exact ⟨mid, by rw [hmid, List.cons_append]⟩

theorem flush_not_in_prefix {pre post cons rest : List WriterCommand} {b : Nat}
    (h : pre ++ .flush b :: post = cons ++ rest) (hb : b ∉ flushesOf pre)
    (hc : b ∉ flushesOf cons) :
    ∃ pre2, pre = cons ++ pre2 ∧ rest = pre2 ++ .flush b :: post
      ∧ b ∉ flushesOf pre2 := by
  induction cons generalizing pre with
  | nil =>
    refine ⟨pre, rfl, ?_, hb⟩
    rw [List.nil_append] at h
    exact h.symm
  | cons c cons' ih =>
    cases pre with
    | nil =>
      rw [List.nil_append, List.cons_append] at h
      injection h with h1 h2
      subst h1
      rw [flushesOf] at hc
      exact absurd (List.mem_cons_self _ _) hc
    | cons p pre' =>
      rw [List.cons_append, List.cons_append] at h
      injection h with h1 h2
      subst h1
      obtain ⟨pre2, hp, hr, hb2⟩ := ih h2
        (not_mem_flushesOf_cons hb) (not_mem_flushesOf_cons hc)
      exact ⟨pre2, by rw [hp, List.cons_append], hr, hb2⟩

theorem flush_barrier_shutdownFinish (fails : List Bool) (d : Nat)
    (cmds : List WriterCommand) (batch : List Message) (waiters : List Nat)
    (b : Nat) (t1 t2 : List WEvent)
    (hsplit : shutdownFinish fails d cmds batch waiters
      = t1 ++ .signaled b :: t2) :
    b ∈ (drain_remaining d cmds batch waiters).2
    ∧ ∀ m ∈ (drain_remaining d cmds batch waiters).1, m ∈ writtenOf t1 := by
  constructor
  · have hmem : WEvent.signaled b ∈ shutdownFinish fails d cmds batch waiters := by
      rw [hsplit]
      exact List.mem_append_right t1 (List.mem_cons_self _ _)
    simp only [shutdownFinish] at hmem
    rcases List.mem_append.mp hmem with h | h
    · exfalso
      revert h
      split
      · simp
      · simp [write_batch]
    · rw [signal_flush_waiters, List.mem_map] at h
      obtain ⟨x, hx, he⟩ := h
      injection he with hxb
      subst hxb
      exact hx
  · intro m hm
    have hne : ¬ (drain_remaining d cmds batch waiters).1.isEmpty = true := by
      rw [List.isEmpty_iff]
      intro h0
      rw [h0] at hm
      simp at hm
    have hsplit2 : WEvent.wrote (drain_remaining d cmds batch waiters).1
        (!fails.headD false) true
          :: signal_flush_waiters (drain_remaining d cmds batch waiters).2
        = t1 ++ .signaled b :: t2 := by
      rw [← hsplit]
      simp only [shutdownFinish]
      rw [if_neg hne, write_batch]
      simp
    cases t1 with
    | nil =>
      rw [List.nil_append] at hsplit2
      injection hsplit2 with h1 _
      exact absurd h1 (by simp)
    | cons e t1' =>
      rw [List.cons_append] at hsplit2
      injection hsplit2 with h1 h2
      subst h1
      exact List.mem_append_left _ hm

theorem flush_barrier_iter (batchSize a d : Nat) (c : WriterCommand)
    (rest : List WriterCommand) (fails : List Bool)
    (k : List WriterCommand → List Bool → List WEvent) (b : Nat)
    (hk : ∀ (cmds2 : List WriterCommand) (fails2 : List Bool)
        (pre2 post2 : List WriterCommand) (t1' t2' : List WEvent),
        cmds2 = pre2 ++ .flush b :: post2 → b ∉ flushesOf pre2 →
        k cmds2 fails2 = t1' ++ .signaled b :: t2' → WEvent.signaled b ∉ t1' →
        ∀ m ∈ msgsOf pre2, m ∈ writtenOf t1')
    (pre post : List WriterCommand) (t1 t2 : List WEvent)
    (hcmds : c :: rest = pre ++ .flush b :: post)
    (hb : b ∉ flushesOf pre)
    (hsplit : writerIter batchSize a d rest fails (msgsOf [c]) (flushesOf [c]) k
      = t1 ++ .signaled b :: t2)
    (hfirst : WEvent.signaled b ∉ t1) :
    ∀ m ∈ msgsOf pre, m ∈ writtenOf t1 := by
  obtain ⟨consF, hf1, hf2, hf3⟩ :=
    fillLoop_spec batchSize a rest (msgsOf [c]) (flushesOf [c])
  set r := fillLoop batchSize a rest (msgsOf [c]) (flushesOf [c]) with hr
  have hbatch : r.batch = msgsOf (c :: consF) := by
    rw [hf2]
    exact (msgsOf_cons_eq c consF).symm
  have hwait : r.waiters = flushesOf (c :: consF) := by
    rw [hf3]
    exact (flushesOf_cons_eq c consF).symm
  have hcmds0 : c :: rest = (c :: consF) ++ r.rest := by
    rw [List.cons_append, ← hf1]
  simp only [writerIter] at hsplit
  rw [← hr] at hsplit
  by_cases hsaw : r.sawShutdown
  · rw [if_pos hsaw] at hsplit
    obtain ⟨hmem, hwr⟩ :=
      flush_barrier_shutdownFinish fails d r.rest r.batch r.waiters b t1 t2 hsplit
    obtain ⟨consD, restD, hd1, hd2, hd3⟩ := drain_remaining_spec d r.rest r.batch r.waiters
    have hcmds1 : pre ++ .flush b :: post = ((c :: consF) ++ consD) ++ restD := by
      rw [← hcmds, hcmds0, hd1, List.append_assoc]
    have hbD : b ∈ flushesOf ((c :: consF) ++ consD) := by
      rw [flushesOf_append, ← hwait, ← hd3]
      exact hmem
    obtain ⟨mid, hcm⟩ := flush_mem_prefix hcmds1 hb hbD
    intro m hm
    apply hwr
    rw [hd2, hbatch, ← msgsOf_append, hcm, msgsOf_append]
    exact List.mem_append_left _ hm
  · rw [if_neg hsaw] at hsplit
    have hcmds1 : pre ++ .flush b :: post = (c :: consF) ++ r.rest := by
      rw [← hcmds, hcmds0]
    by_cases hbw : b ∈ flushesOf (c :: consF)
    · obtain ⟨mid, hcm⟩ := flush_mem_prefix hcmds1 hb hbw
      intro m hm
      have hmb : m ∈ r.batch := by
        rw [hbatch, hcm, msgsOf_append]
        exact List.mem_append_left _ hm
      have hne : ¬ r.batch.isEmpty = true := by
        rw [List.isEmpty_iff]
        intro h0
        rw [h0] at hmb
        simp at hmb
      rw [if_neg hne, write_batch] at hsplit
      rw [List.singleton_append, List.cons_append] at hsplit
      cases t1 with
      | nil =>
        rw [List.nil_append] at hsplit
        injection hsplit with h1 _
        exact absurd h1 (by simp)
      | cons e t1' =>
        rw [List.cons_append] at hsplit
        injection hsplit with h1 h2
        subst h1
        exact List.mem_append_left _ hmb
    · have hb2 : b ∉ r.waiters := by
        rw [hwait]
        exact hbw
      obtain ⟨pre2, hp, hrr, hbp2⟩ := flush_not_in_prefix hcmds1 hb hbw
      obtain ⟨t1', ht1, hksplit⟩ := append_split_notmem hsplit
        (by
          intro hmem
          rcases List.mem_append.mp hmem with h | h
          · revert h
            split
            · simp
            · simp [write_batch]
          · exact signaled_not_mem_signal hb2 h)
        hfirst
      have hfirst' : WEvent.signaled b ∉ t1' := by
        intro hmem
        exact hfirst (ht1 ▸ List.mem_append_right _ hmem)
      have hrec := hk r.rest
        (if r.batch.isEmpty then (([] : List WEvent), fails)
          else write_batch fails r.batch false).2
        pre2 post t1' t2 hrr hbp2 hksplit hfirst'
      intro m hm
      rw [hp, msgsOf_append] at hm
      rw [ht1, writtenOf_append, writtenOf_append]
      rcases List.mem_append.mp hm with hm | hm
      · have hmb : m ∈ r.batch := by
          rw [hbatch]
          exact hm
        have hne : ¬ r.batch.isEmpty = true := by
          rw [List.isEmpty_iff]
          intro h0
          rw [h0] at hmb
          simp at hmb
        apply List.mem_append_left
        apply List.mem_append_left
        rw [if_neg hne, write_batch]
        simpa [writtenOf] using hmb
      · exact List.mem_append_right _ (hrec m hm)

/-- Claim C1: the flush barrier is true: for every command sequence the
worker processes (any try_recv schedule, any write outcomes), if a flush
barrier b — whose command follows the prefix `pre` on the channel — is
signalled at some point of the trace, then every message of `pre` has
already been passed to store.insert_batch strictly before that signal
(whether that write succeeded or errored).  Since flush() places its
barrier after all previously enqueued messages on the FIFO channel and
resolves only when the barrier is signalled, flush() resolves only after
every message enqueued strictly before it was persisted or dropped. -/
theorem flush_barrier (batchSize fuel : Nat) :
    ∀ (cmds : List WriterCommand) (sched : List (Nat × Nat))
      (fails : List Bool) (pre post : List WriterCommand) (b : Nat)
      (t1 t2 : List WEvent),
    cmds = pre ++ .flush b :: post → b ∉ flushesOf pre →
    writer_loop batchSize fuel cmds sched fails = t1 ++ .signaled b :: t2 →
    WEvent.signaled b ∉ t1 →
    ∀ m ∈ msgsOf pre, m ∈ writtenOf t1 := by
  induction fuel with
  | zero =>
    intro cmds sched fails pre post b t1 t2 hcmds hb hsplit hfirst
    rw [writer_loop] at hsplit
    exact absurd hsplit (by simp)
  | succ fuel ih =>
    intro cmds sched fails pre post b t1 t2 hcmds hb hsplit hfirst
    cases cmds with
    | nil => simp at hcmds
    | cons c rest =>
      cases c with
      | shutdown =>
        cases pre with
        | nil =>
          intro m hm
          simp [msgsOf] at hm
        | cons p pre' =>
          rw [List.cons_append] at hcmds
          injection hcmds with h1 h2
          subst h1
          simp only [writer_loop] at hsplit
          obtain ⟨hmem, hwr⟩ := flush_barrier_shutdownFinish fails
            ((sched.headD (0, 0)).2) rest [] [] b t1 t2 hsplit
          obtain ⟨consD, restD, hd1, hd2, hd3⟩ :=
            drain_remaining_spec ((sched.headD (0, 0)).2) rest [] []
          have hb' : b ∉ flushesOf pre' := not_mem_flushesOf_cons hb
          have hcmds1 : pre' ++ .flush b :: post = consD ++ restD := by
            rw [← h2, hd1]
          have hbD : b ∈ flushesOf consD := by
            have := hmem
            rw [hd3] at this
            simpa using this
          obtain ⟨mid, hcm⟩ := flush_mem_prefix hcmds1 hb' hbD
          intro m hm
          apply hwr
          rw [hd2, List.nil_append, hcm, msgsOf_append]
          have hm' : m ∈ msgsOf pre' := by
            simpa [msgsOf] using hm
          exact List.mem_append_left _ hm'
      | message m0 =>
        simp only [writer_loop] at hsplit
        exact flush_barrier_iter batchSize ((sched.headD (0, 0)).1)
          ((sched.headD (0, 0)).2) (.message m0) rest fails
          (fun rest2 fails2 => writer_loop batchSize fuel rest2 sched.tail fails2)
          b
          (fun cmds2 fails2 pre2 post2 t1' t2' hc2 hb2 hk2 hf2 =>
            ih cmds2 sched.tail fails2 pre2 post2 b t1' t2' hc2 hb2 hk2 hf2)
          pre post t1 t2 hcmds hb hsplit hfirst
      | flush b0 =>
        simp only [writer_loop] at hsplit
        exact flush_barrier_iter batchSize ((sched.headD (0, 0)).1)
          ((sched.headD (0, 0)).2) (.flush b0) rest fails
          (fun rest2 fails2 => writer_loop batchSize fuel rest2 sched.tail fails2)
          b
          (fun cmds2 fails2 pre2 post2 t1' t2' hc2 hb2 hk2 hf2 =>
            ih cmds2 sched.tail fails2 pre2 post2 b t1' t2' hc2 hb2 hk2 hf2)
          pre post t1 t2 hcmds hb hsplit hfirst

theorem flush_barrier_witness :
    ({ id := 1, session_id := "", event_type := "", data := "",
       created_at := 0, delivered_at := none } : Message)
      ∈ writtenOf [WEvent.wrote
        [{ id := 1, session_id := "", event_type := "", data := "",
           created_at := 0, delivered_at := none }] true false] :=
  flush_barrier 2 2
    [.message { id := 1, session_id := "", event_type := "", data := "",
                created_at := 0, delivered_at := none }, .flush 0]
    [(1, 0)] []
    [.message { id := 1, session_id := "", event_type := "", data := "",
                created_at := 0, delivered_at := none }] [] 0
    [.wrote [{ id := 1, session_id := "", event_type := "", data := "",
               created_at := 0, delivered_at := none }] true false] []
    rfl (by decide) rfl (by decide)
    { id := 1, session_id := "", event_type := "", data := "",
      created_at := 0, delivered_at := none } (by decide)

/-- Claim C7: a failed batch write changes nothing but the recorded outcome:
for any two write-outcome oracles the worker produces the same trace up to
the per-write ok flag — the batch is cleared either way, the worker does not
stop, and every flush barrier collected in that iteration is signalled
exactly as on success; moreover no message is ever passed to insert_batch
more often than it was received (dropped batches are never re-sent). -/
theorem write_failure_drop_and_continue (batchSize fuel : Nat)
    (cmds : List WriterCommand) (sched : List (Nat × Nat))
    (fails fails' : List Bool) :
    stripOk (writer_loop batchSize fuel cmds sched fails)
      = stripOk (writer_loop batchSize fuel cmds sched fails')
    ∧ ∀ m : Message,
        (writtenOf (writer_loop batchSize fuel cmds sched fails)).count m
          ≤ (msgsOf cmds).count m := by
  refine ⟨writer_loop_stripOk batchSize fuel cmds sched fails fails', ?_⟩
  intro m
  obtain ⟨cons, rest, h1, h2⟩ := writer_loop_written batchSize fuel cmds sched fails
  rw [h2, h1, msgsOf_append, List.count_append]
  exact Nat.le_add_right _ _


theorem drain_remaining_nil (d : Nat) (batch : List Message)
    (waiters : List Nat) :
    drain_remaining d [] batch waiters = (batch, waiters) := by
  cases d <;> rfl

/-- Channel-reachability invariant of the writer: no command follows
Shutdown.  It holds in every reachable execution because
`MessageWriter::shutdown(self)` consumes the writer's only `Sender` (the
field is private and never cloned; `PubSub::shutdown` reaches it only
through a successful `Arc::try_unwrap`), so Shutdown, if present, is the
last command the worker ever receives. -/
def shutdownLastOnly : List WriterCommand → Bool
  | [] => true
  | .shutdown :: rest => rest.isEmpty
  | .message _ :: rest => shutdownLastOnly rest
  | .flush _ :: rest => shutdownLastOnly rest

theorem shutdownLastOnly_split {cmds pre post : List WriterCommand}
    (h : shutdownLastOnly cmds = true) (he : cmds = pre ++ .shutdown :: post) :
    post = [] := by
  subst he
  induction pre with
  | nil =>
    rw [List.nil_append, shutdownLastOnly, List.isEmpty_iff] at h
    exact h
  | cons c pre' ih =>
    cases c with
    | message m =>
      rw [List.cons_append, shutdownLastOnly] at h
      exact ih h
    | flush b =>
      rw [List.cons_append, shutdownLastOnly] at h
      exact ih h
    | shutdown =>
      rw [List.cons_append, shutdownLastOnly, List.isEmpty_iff] at h
      exact absurd h (by simp)

theorem shutdownLastOnly_suffix {xs ys : List WriterCommand}
    (h : shutdownLastOnly (xs ++ ys) = true) : shutdownLastOnly ys = true := by
  induction xs with
  | nil => exact h
  | cons c xs' ih =>
    cases c with
    | message m =>
      rw [List.cons_append, shutdownLastOnly] at h
      exact ih h
    | flush b =>
      rw [List.cons_append, shutdownLastOnly] at h
      exact ih h
    | shutdown =>
      rw [List.cons_append, shutdownLastOnly, List.isEmpty_iff] at h
      rw [(List.append_eq_nil.mp h).2]
      rfl

theorem fillLoop_saw_split (batchSize avail : Nat) :
    ∀ (cmds : List WriterCommand) (batch : List Message) (waiters : List Nat),
    (fillLoop batchSize avail cmds batch waiters).sawShutdown = true →
    ∃ pre', cmds = pre' ++ .shutdown
      :: (fillLoop batchSize avail cmds batch waiters).rest := by
  induction avail with
  | zero =>
    intro cmds batch waiters h
    rw [fillLoop_zero] at h
    simp at h
  | succ a ih =>
    intro cmds batch waiters h
    by_cases hlen : batch.length < batchSize
    · cases cmds with
      | nil =>
        rw [fillLoop_nil] at h
        simp at h
      | cons c rest =>
        cases c with
        | message m =>
          rw [fillLoop_msg a m rest waiters hlen] at h ⊢
          obtain ⟨pre', hp⟩ := ih rest (batch ++ [m]) waiters h
          exact ⟨.message m :: pre', by rw [List.cons_append, ← hp]⟩
        | flush b =>
          rw [fillLoop_flush a b rest waiters hlen] at h
          simp at h
        | shutdown =>
          rw [fillLoop_shutdown a rest waiters hlen]
          exact ⟨[], rfl⟩
    · rw [fillLoop_full _ _ _ hlen] at h
      simp at h

theorem fillLoop_saw_batch_lt (batchSize avail : Nat) :
    ∀ (cmds : List WriterCommand) (batch : List Message) (waiters : List Nat),
    (fillLoop batchSize avail cmds batch waiters).sawShutdown = true →
    (fillLoop batchSize avail cmds batch waiters).batch.length < batchSize := by
  induction avail with
  | zero =>
    intro cmds batch waiters h
    rw [fillLoop_zero] at h
    simp at h
  | succ a ih =>
    intro cmds batch waiters h
    by_cases hlen : batch.length < batchSize
    · cases cmds with
      | nil =>
        rw [fillLoop_nil] at h
        simp at h
      | cons c rest =>
        cases c with
        | message m =>
          rw [fillLoop_msg a m rest waiters hlen] at h ⊢
          exact ih rest (batch ++ [m]) waiters h
        | flush b =>
          rw [fillLoop_flush a b rest waiters hlen] at h
          simp at h
        | shutdown =>
          rw [fillLoop_shutdown a rest waiters hlen]
          exact hlen
    · rw [fillLoop_full _ _ _ hlen] at h
      simp at h

/-- Claim C4: every call the worker makes to store.insert_batch — including
the final write performed on the shutdown drain — passes at most batch_size
messages.  Hypotheses: batch_size ≥ 1 (the configured maximum, default
200), and the channel invariant `shutdownLastOnly` that no command follows
Shutdown, which holds in every reachable execution since shutdown(self)
consumes the writer's only Sender.  Under it the shutdown drain finds no
trailing commands, and a batch being filled when Shutdown is drawn is
strictly below batch_size by the fill-loop guard. -/
theorem batch_size_bound (batchSize : Nat) (hbs : 1 ≤ batchSize)
    (fuel : Nat) :
    ∀ (cmds : List WriterCommand) (sched : List (Nat × Nat))
      (fails : List Bool),
    shutdownLastOnly cmds = true →
    ∀ (bt : List Message) (ok dr : Bool),
    WEvent.wrote bt ok dr ∈ writer_loop batchSize fuel cmds sched fails →
    bt.length ≤ batchSize := by
  induction fuel with
  | zero =>
    intro cmds sched fails hlast bt ok dr h
    rw [writer_loop] at h
    simp at h
  | succ fuel ih =>
    intro cmds sched fails hlast bt ok dr h
    cases cmds with
    | nil =>
      simp only [writer_loop] at h
      simp at h
    | cons c rest =>
      cases c with
      | shutdown =>
        have hrest : rest = [] := shutdownLastOnly_split hlast
          (show WriterCommand.shutdown :: rest = [] ++ .shutdown :: rest from rfl)
        subst hrest
        simp only [writer_loop] at h
        simp [shutdownFinish, drain_remaining_nil, signal_flush_waiters] at h
      | message m0 =>
        simp only [writer_loop, writerIter] at h
        split at h
        · next hsaw =>
          obtain ⟨pre', hpre⟩ := fillLoop_saw_split batchSize
            ((sched.headD (0, 0)).1) rest [m0] [] hsaw
          have hrest : (fillLoop batchSize ((sched.headD (0, 0)).1)
              rest [m0] []).rest = [] :=
            shutdownLastOnly_split hlast (by rw [List.cons_append, ← hpre])
          rw [hrest] at h
          simp only [shutdownFinish, drain_remaining_nil] at h
          rcases List.mem_append.mp h with h | h
          · split at h
            · simp at h
            · rw [write_batch, List.mem_singleton] at h
              injection h with h1 h2 h3
              rw [h1]
              exact le_of_lt (fillLoop_saw_batch_lt batchSize
                ((sched.headD (0, 0)).1) rest [m0] [] hsaw)
          · rw [signal_flush_waiters, List.mem_map] at h
            obtain ⟨x, _, he⟩ := h
            exact absurd he (by simp)
        · rcases List.mem_append.mp h with h | h
          · rcases List.mem_append.mp h with h | h
            · split at h
              · simp at h
              · rw [write_batch, List.mem_singleton] at h
                injection h with h1 h2 h3
                rw [h1]
                exact fillLoop_batch_le batchSize _ rest [m0] []
                  (by simpa using hbs)
            · rw [signal_flush_waiters, List.mem_map] at h
              obtain ⟨x, _, he⟩ := h
              exact absurd he (by simp)
          · obtain ⟨consF, hf1, hf2, hf3⟩ :=
              fillLoop_spec batchSize ((sched.headD (0, 0)).1) rest [m0] []
            have hx : shutdownLastOnly ((.message m0 :: consF)
                ++ (fillLoop batchSize ((sched.headD (0, 0)).1)
                    rest [m0] []).rest) = true := by
              rw [List.cons_append, ← hf1]
              exact hlast
            have hlast' : shutdownLastOnly (fillLoop batchSize
                ((sched.headD (0, 0)).1) rest [m0] []).rest = true :=
              shutdownLastOnly_suffix hx
            exact ih _ sched.tail _ hlast' bt ok dr h
      | flush b0 =>
        simp only [writer_loop, writerIter] at h
        split at h
        · next hsaw =>
          obtain ⟨pre', hpre⟩ := fillLoop_saw_split batchSize
            ((sched.headD (0, 0)).1) rest [] [b0] hsaw
          have hrest : (fillLoop batchSize ((sched.headD (0, 0)).1)
              rest [] [b0]).rest = [] :=
            shutdownLastOnly_split hlast (by rw [List.cons_append, ← hpre])
          rw [hrest] at h
          simp only [shutdownFinish, drain_remaining_nil] at h
          rcases List.mem_append.mp h with h | h
          · split at h
            · simp at h
            · rw [write_batch, List.mem_singleton] at h
              injection h with h1 h2 h3
              rw [h1]
              exact le_of_lt (fillLoop_saw_batch_lt batchSize
                ((sched.headD (0, 0)).1) rest [] [b0] hsaw)
          · rw [signal_flush_waiters, List.mem_map] at h
            obtain ⟨x, _, he⟩ := h
            exact absurd he (by simp)
        · rcases List.mem_append.mp h with h | h
          · rcases List.mem_append.mp h with h | h
            · split at h
              · simp at h
              · rw [write_batch, List.mem_singleton] at h
                injection h with h1 h2 h3
                rw [h1]
                exact fillLoop_batch_le batchSize _ rest [] [b0] (by simp)
            · rw [signal_flush_waiters, List.mem_map] at h
              obtain ⟨x, _, he⟩ := h
              exact absurd he (by simp)
          · obtain ⟨consF, hf1, hf2, hf3⟩ :=
              fillLoop_spec batchSize ((sched.headD (0, 0)).1) rest [] [b0]
            have hx : shutdownLastOnly ((.flush b0 :: consF)
                ++ (fillLoop batchSize ((sched.headD (0, 0)).1)
                    rest [] [b0]).rest) = true := by
              rw [List.cons_append, ← hf1]
              exact hlast
            have hlast' : shutdownLastOnly (fillLoop batchSize
                ((sched.headD (0, 0)).1) rest [] [b0]).rest = true :=
              shutdownLastOnly_suffix hx
            exact ih _ sched.tail _ hlast' bt ok dr h

theorem batch_size_bound_witness :
    shutdownLastOnly [.message { id := 1, session_id := "",
                                 event_type := "", data := "",
                                 created_at := 0, delivered_at := none },
                      .shutdown] = true
    ∧ WEvent.wrote [{ id := 1, session_id := "", event_type := "",
                      data := "", created_at := 0,
                      delivered_at := none }] true true
        ∈ writer_loop 2 2
          [.message { id := 1, session_id := "", event_type := "",
                      data := "", created_at := 0, delivered_at := none },
           .shutdown]
          [(1, 0)] []
    ∧ ([{ id := 1, session_id := "", event_type := "", data := "",
          created_at := 0, delivered_at := none }] : List Message).length ≤ 2 :=
  ⟨by decide, by decide,
   batch_size_bound 2 (by decide) 2
     [.message { id := 1, session_id := "", event_type := "", data := "",
                 created_at := 0, delivered_at := none }, .shutdown]
     [(1, 0)] [] (by decide)
     [{ id := 1, session_id := "", event_type := "", data := "",
        created_at := 0, delivered_at := none }] true true (by decide)⟩
